import Mathlib

/-!
Verification development for the GRoller XGC-to-G-code transpiler
(src/transpiler/xgc_to_py.py and src/transpiler/py_execute.py).

The Python sources are shallowly embedded as executable Lean definitions:

* text is `List Char` (strings at the boundary are written `"...".data`);
* Python floats are modelled as exact rationals `ℚ`;
* Python dicts used as keyword-argument records are ordered association
  lists `List (String × ℚ)` (Python dicts preserve insertion order);
* fallible code returns `Except GErr _`;
* the degree-based trigonometric environment (`math.cos ∘ math.radians`,
  `math.sin ∘ math.radians`), and the f-string rendering of a numeric
  value, are host-interpreter facilities, so they are abstracted as
  function parameters `cosd sind : ℚ → ℚ` and `showV : ℚ → List Char`;
* scanners that correspond to regular-expression passes recurse on an
  explicit fuel argument (instantiated with the input length, which each
  step decreases by at least one) so that all definitions reduce inside
  the kernel.
-/

namespace GRoller

/-! ## Character classes (Python `str` semantics) -/

/-- Line-break characters recognised by Python `str.splitlines`
(`\r\n` is additionally treated as a single break by `splitLines` below). -/
def isBreakChar (c : Char) : Bool :=
  c = '\n' ∨ c = '\r' ∨ c = '\x0b' ∨ c = '\x0c' ∨ c = '\x1c' ∨ c = '\x1d' ∨
  c = '\x1e' ∨ c = '\u0085' ∨ c = '\u2028' ∨ c = '\u2029'

/-- Whitespace recognised by Python `str.strip()` / `str.split()` and by the
regex class `\s` (Unicode mode): ASCII whitespace, the separator controls,
and the common Unicode space characters. -/
def isPySpace (c : Char) : Bool :=
  c = ' ' ∨ c = '\t' ∨ isBreakChar c ∨ c = '\x1f' ∨ c = '\u00a0' ∨
  c = '\u1680' ∨ ('\u2000' ≤ c ∧ c ≤ '\u200a') ∨ c = '\u202f' ∨
  c = '\u205f' ∨ c = '\u3000'

/-- Abbreviation: the underlying character list of a string literal. -/
def cs (s : String) : List Char := s.data

/-- Python `sep.join(xs)`: the pieces joined with `sep` in between
(no trailing separator). -/
def joinSep (sep : List Char) : List (List Char) → List Char
  | [] => []
  | [x] => x
  | x :: y :: t => x ++ sep ++ joinSep sep (y :: t)

/-- A chunk of text has a non-whitespace character; this is exactly the
truthiness of Python `line.strip()`. -/
def hasNonSpace (l : List Char) : Bool := l.any (fun c => ¬ isPySpace c)

/-- Python `str.strip()` (with no argument). -/
def pyStrip (l : List Char) : List Char :=
  ((l.dropWhile isPySpace).reverse.dropWhile isPySpace).reverse

/-- Split on `'\n'` only; exact inverse of `joinSep ['\n']`.
Used to model a regex pass in which `.` stops at `'\n'` and nowhere else. -/
def splitOnNl : List Char → List (List Char)
  | [] => [[]]
  | '\n' :: rest => [] :: splitOnNl rest
  | c :: rest =>
    match splitOnNl rest with
    | [] => [[c]]
    | l :: ls => (c :: l) :: ls

/-- Python `str.splitlines()`: split at every break character, treating
`"\r\n"` as a single break; a trailing break does not open a final empty
line. -/
def splitLines : List Char → List (List Char)
  | [] => []
  | '\r' :: '\n' :: rest => [] :: splitLines rest
  | c :: rest =>
    if isBreakChar c then [] :: splitLines rest
    else
      match splitLines rest with
      | [] => [[c]]
      | l :: ls => (c :: l) :: ls

/-- Python `str.split()` (no argument): split on whitespace runs, dropping
empty pieces. -/
def pySplit : List Char → List (List Char) :=
  go []
where
  /-- `acc` holds the current token, reversed. -/
  go (acc : List Char) : List Char → List (List Char)
    | [] => if acc = [] then [] else [acc.reverse]
    | c :: rest =>
      if isPySpace c then
        if acc = [] then go [] rest else acc.reverse :: go [] rest
      else go (c :: acc) rest

/-! ## Normalizer (`xgc_strip`, src/transpiler/xgc_to_py.py lines 21-48) -/

/-- One `'\n'`-segment of `re.sub(r"[ \t]*;.*", "", ...)`: everything from
the first `;` to the end of the segment is removed, together with the run
of spaces and tabs immediately before that `;`; a segment without `;` is
untouched. -/
def segStrip (seg : List Char) : List Char :=
  if ';' ∈ seg then
    ((seg.takeWhile (· ≠ ';')).reverse.dropWhile (fun c => c = ' ' ∨ c = '\t')).reverse
  else seg

/-- `re.sub(r"[ \t]*;.*", "", s)`: `.` does not cross `'\n'`, so the
substitution acts independently on every `'\n'`-segment. -/
def stripComments (s : List Char) : List Char :=
  joinSep ['\n'] ((splitOnNl s).map segStrip)

/-- `result.replace("[", "").replace("]", "")`. -/
def removeBrackets (s : List Char) : List Char :=
  s.filter (fun c => ¬ (c = '[' ∨ c = ']'))

/-- `xgc_strip`: strip `;`-comments, drop blank lines, remove brackets. -/
def xgc_strip (s : List Char) : List Char :=
  removeBrackets
    (joinSep ['\n'] ((splitLines (stripComments s)).filter hasNonSpace))

/-! ## Errors

Python exception values.  Where a handler interpolates a set of parameter
letters into the message (`f"... {illegal}"`, `f"... {missing_required}"`),
the letters are carried structurally in the `letters` field, because the
iteration order of a Python `set` of strings is not deterministic across
processes. -/

inductive GErr where
  | valueError (msg : String) (letters : List String)
  | typeError (msg : String)
  | syntaxError (msg : String)
  | keyError (key : String)
  | indexError (msg : String)
  deriving DecidableEq, Repr

/-- `true` on `.error _`. -/
def isErr {α : Type} : Except GErr α → Bool
  | .error _ => true
  | .ok _ => false

/-! ## Machine state (src/transpiler/py_execute.py lines 19-38)

`machine_state` is a module-level dict, alive for the whole process; it is
*not* reconstructed by `python_to_gcode`.  The initial dict has the key
`"params"` inside `"canned_cycle"`, but `G80`/`G81_1`/`canned_cycle_xy`
use the key `"parameters"`, which is *absent* initially - hence the
`Option` field `parameters` (with `none` = key absent, so that reading it
raises `KeyError`).  Likewise `M05` writes the key `"spindle_RPM"`
(capitals), distinct from the initial key `"spindle_rpm"`. -/

structure PolarMode where
  enabled : Bool
  cx : ℚ
  cy : ℚ
  deriving DecidableEq, Repr

structure CannedCycle where
  mode : String
  /-- the unused initial key `"params"` -/
  params : List (String × ℚ)
  /-- the key `"parameters"`; absent from the initial dict -/
  parameters : Option (List (String × ℚ))
  deriving DecidableEq, Repr

structure MachineState where
  polar_mode : PolarMode
  canned_cycle : CannedCycle
  unit : String
  positioning : String
  spindle_state : String
  spindle_rpm : ℚ
  /-- the key `"spindle_RPM"` written by `M05` (a typo for `"spindle_rpm"`);
  absent from the initial dict -/
  spindle_RPM : Option ℚ
  feedrate_mode : String
  arc_plane : String
  deriving DecidableEq, Repr

/-- The module globals visible to every handler: the machine state and the
output buffer `exec_result`. -/
structure ModuleState where
  machine_state : MachineState
  exec_result : List Char
  deriving DecidableEq, Repr

/-- The module-initialization value of `machine_state`. -/
def initMachineState : MachineState where
  polar_mode := { enabled := false, cx := 0, cy := 0 }
  canned_cycle := { mode := "", params := [], parameters := none }
  unit := "mm"
  positioning := "absolute"
  spindle_state := "off"
  spindle_rpm := 0
  spindle_RPM := none
  feedrate_mode := "normal"
  arc_plane := "XY"

/-- Module state right after import: initial machine state, empty buffer. -/
def initModuleState : ModuleState where
  machine_state := initMachineState
  exec_result := []

/-! ## Ordered keyword-argument records -/

/-- `kwargs[k]` as an option (first match; Python dicts have unique keys). -/
def lookupQ (k : String) (l : List (String × ℚ)) : Option ℚ :=
  (l.find? (fun p => p.1 = k)).map (fun p => p.2)

/-- `kwargs[k] = v` on an existing key: replace the value in place,
preserving insertion order. -/
def updSnd (k : String) (v : ℚ) (l : List (String × ℚ)) : List (String × ℚ) :=
  l.map (fun p => if p.1 = k then (k, v) else p)

/-- The emitted line `f"<CMD> {" ".join(f"{k}{v}" for k, v in kwargs.items())}\n"`. -/
def emitKw (cmd : String) (showV : ℚ → List Char) (kwargs : List (String × ℚ)) :
    List Char :=
  cmd.data ++ [' '] ++
    joinSep [' '] (kwargs.map (fun p => p.1.data ++ showV p.2)) ++ ['\n']

/-! ## Command handlers (src/transpiler/py_execute.py)

`showV` renders a numeric value the way an f-string renders the
corresponding Python float; `cosd`/`sind` are the degree-based
trigonometric functions `math.cos(math.radians _)` / `math.sin(math.radians _)`;
`g04style` is `app.settings["transpiler"]["g04-style"]`. -/

section Handlers

variable (showV : ℚ → List Char) (cosd sind : ℚ → ℚ) (g04style : String)

/-- `G00` (lines 108-164): rapid linear motion; allow-list `X Y Z A B C`,
polar-aware. -/
def G00 (kwargs : List (String × ℚ)) (st : ModuleState) : Except GErr ModuleState :=
  let illegal := (kwargs.map (fun p => p.1)).filter
    (fun k => ¬ k ∈ (["X", "Y", "Z", "A", "B", "C"] : List String))
  if illegal ≠ [] then
    .error (.valueError "G00 contains unexpected parameter(s)" illegal)
  else
    let pm := st.machine_state.polar_mode
    let kw : Except GErr (List (String × ℚ)) :=
      if pm.enabled then
        match lookupQ "X" kwargs, lookupQ "Y" kwargs with
        | some r, some θ =>
          .ok (updSnd "Y" (pm.cy + r * sind θ) (updSnd "X" (pm.cx + r * cosd θ) kwargs))
        | some _, none => .error (.valueError "G00 (polar mode) needs argument Y" ["Y"])
        | none, some _ => .error (.valueError "G00 (polar mode) needs argument X" ["X"])
        | none, none => .ok kwargs
      else .ok kwargs
    kw.map (fun kwargs =>
      { st with exec_result := st.exec_result ++ emitKw "G00" showV kwargs })

/-- `G01` (lines 166-222): linear motion; allow-list `X Y Z A B C F`,
polar-aware. -/
def G01 (kwargs : List (String × ℚ)) (st : ModuleState) : Except GErr ModuleState :=
  let illegal := (kwargs.map (fun p => p.1)).filter
    (fun k => ¬ k ∈ (["X", "Y", "Z", "A", "B", "C", "F"] : List String))
  if illegal ≠ [] then
    .error (.valueError "G01 contains unexpected parameter(s)" illegal)
  else
    let pm := st.machine_state.polar_mode
    let kw : Except GErr (List (String × ℚ)) :=
      if pm.enabled then
        match lookupQ "X" kwargs, lookupQ "Y" kwargs with
        | some r, some θ =>
          .ok (updSnd "Y" (pm.cy + r * sind θ) (updSnd "X" (pm.cx + r * cosd θ) kwargs))
        | some _, none =>
          .error (.valueError "G01 (polar mode) needs an extra argument: Y" ["Y"])
        | none, some _ =>
          .error (.valueError "G01 (polar mode) needs an extra argument: X" ["X"])
        | none, none => .ok kwargs
      else .ok kwargs
    kw.map (fun kwargs =>
      { st with exec_result := st.exec_result ++ emitKw "G01" showV kwargs })

/-- `G04` (lines 302-326): dwell.  Only the `"RS-274"` style is defined;
any other configured style matches no `case` and emits nothing.
Non-negative `P` is seconds; negative `P` is milliseconds, negated and
divided by 1000. -/
def G04 (P : ℚ) (st : ModuleState) : ModuleState :=
  match g04style with
  | "RS-274" =>
    { st with exec_result := st.exec_result ++
        (if 0 ≤ P then cs "G04 P" ++ showV P else cs "G04 P" ++ showV (-P / 1000)) ++
        ['\n'] }
  | _ => st

/-- `G15` (lines 328-349): leave polar mode; emits nothing. -/
def G15 (_is_line_end : Bool) (st : ModuleState) : ModuleState :=
  { st with machine_state := { st.machine_state with
      polar_mode := { st.machine_state.polar_mode with enabled := false } } }

/-- `G16` (lines 351-384): enter polar mode and set its origin; emits nothing. -/
def G16 (X Y : ℚ) (st : ModuleState) : ModuleState :=
  { st with machine_state := { st.machine_state with
      polar_mode := { enabled := true, cx := X, cy := Y } } }

/-- `G17` (lines 386-408): arc plane `XY`. -/
def G17 (is_line_end : Bool) (st : ModuleState) : ModuleState :=
  { st with
    machine_state := { st.machine_state with arc_plane := "XY" }
    exec_result := st.exec_result ++ (if is_line_end then cs "G17\n" else cs "G17 ") }

/-- `G18` (lines 410-432): arc plane `XZ`. -/
def G18 (is_line_end : Bool) (st : ModuleState) : ModuleState :=
  { st with
    machine_state := { st.machine_state with arc_plane := "XZ" }
    exec_result := st.exec_result ++ (if is_line_end then cs "G18\n" else cs "G18 ") }

/-- `G19` (lines 434-456): arc plane `YZ`. -/
def G19 (is_line_end : Bool) (st : ModuleState) : ModuleState :=
  { st with
    machine_state := { st.machine_state with arc_plane := "YZ" }
    exec_result := st.exec_result ++ (if is_line_end then cs "G19\n" else cs "G19 ") }

/-- `G20` (lines 458-484): unit inches. -/
def G20 (is_line_end : Bool) (st : ModuleState) : ModuleState :=
  { st with
    machine_state := { st.machine_state with unit := "in" }
    exec_result := st.exec_result ++ (if is_line_end then cs "G20\n" else cs "G20 ") }

/-- `G21` (lines 486-512): unit millimeters. -/
def G21 (is_line_end : Bool) (st : ModuleState) : ModuleState :=
  { st with
    machine_state := { st.machine_state with unit := "mm" }
    exec_result := st.exec_result ++ (if is_line_end then cs "G21\n" else cs "G21 ") }

/-- `G90` (lines 583-609): absolute positioning. -/
def G90 (is_line_end : Bool) (st : ModuleState) : ModuleState :=
  { st with
    machine_state := { st.machine_state with positioning := "absolute" }
    exec_result := st.exec_result ++ (if is_line_end then cs "G90\n" else cs "G90 ") }

/-- `G91` (lines 611-634): incremental positioning. -/
def G91 (is_line_end : Bool) (st : ModuleState) : ModuleState :=
  { st with
    machine_state := { st.machine_state with positioning := "incremental" }
    exec_result := st.exec_result ++ (if is_line_end then cs "G91\n" else cs "G91 ") }

/-- `G93` (lines 636-660): inverse feedrate mode. -/
def G93 (is_line_end : Bool) (st : ModuleState) : ModuleState :=
  { st with
    machine_state := { st.machine_state with feedrate_mode := "inverse" }
    exec_result := st.exec_result ++ (if is_line_end then cs "G93\n" else cs "G93 ") }

/-- `G94` (lines 662-683): normal feedrate mode. -/
def G94 (is_line_end : Bool) (st : ModuleState) : ModuleState :=
  { st with
    machine_state := { st.machine_state with feedrate_mode := "normal" }
    exec_result := st.exec_result ++ (if is_line_end then cs "G94\n" else cs "G94 ") }

/-- `G80` (lines 533-555): leave canned cycle mode; clears the mode tag and
empties the `"parameters"` key; emits nothing. -/
def G80 (_is_line_end : Bool) (st : ModuleState) : ModuleState :=
  { st with machine_state := { st.machine_state with
      canned_cycle := { st.machine_state.canned_cycle with
        mode := "", parameters := some [] } } }

end Handlers

/-- Python value for `M03`, which distinguishes `int` from `float` with
`isinstance(S, int)`. -/
inductive PyNum where
  | i (z : ℤ)
  | f (q : ℚ)
  deriving DecidableEq, Repr

/-- The numeric value of a `PyNum`. -/
def PyNum.toQ : PyNum → ℚ
  | .i z => (z : ℚ)
  | .f q => q

/-- Floor of a rational as an integer (`q.den` is positive, so flooring
integer division of the numerator by the denominator is the floor). -/
def ratFloor (q : ℚ) : ℤ := q.num.fdiv q.den

/-- Ceiling of a rational as an integer. -/
def ratCeil (q : ℚ) : ℤ := -ratFloor (-q)

section Handlers2

variable (showV : ℚ → List Char) (cosd sind : ℚ → ℚ) (g04style : String)

/-- `params[k]`, raising `KeyError` when absent. -/
def getParam (k : String) (params : List (String × ℚ)) : Except GErr ℚ :=
  match lookupQ k params with
  | some v => .ok v
  | none => .error (.keyError k)

/-- The body of `canned_cycle_xy`'s `while` loop (lines 526-531), repeated
`iters` times: linear-plunge to `params["Z"]` at `params["F"]`, dwell via
`G04` if `"P"` is present, rapid-retract to `params["R"]`.  The integer
counter `i = 0, 1, ...` runs while `i < L`, i.e. `max 0 ⌈L⌉` times; the
caller passes that count. -/
def drillLoop (params : List (String × ℚ)) :
    Nat → ModuleState → Except GErr ModuleState
  | 0, st => .ok st
  | n + 1, st => do
    let z ← getParam "Z" params
    let f ← getParam "F" params
    let st ← G01 showV cosd sind [("Z", z), ("F", f)] st
    let st := match lookupQ "P" params with
      | some p => G04 showV g04style p st
      | none => st
    let r ← getParam "R" params
    let st ← G00 showV cosd sind [("Z", r)] st
    drillLoop params n st

/-- `canned_cycle_xy` (lines 514-531).  Reads
`machine_state["canned_cycle"]["parameters"]` *before* matching the mode
(so a fresh machine state, whose dict lacks that key, raises `KeyError`);
outside a cycle raises `SyntaxError`; in `G81.1` mode performs the rapid
move then the plunge/dwell/retract loop; any other mode tag matches no
`case` and does nothing. -/
def canned_cycle_xy (X Y : ℚ) (st : ModuleState) : Except GErr ModuleState :=
  match st.machine_state.canned_cycle.parameters with
  | none => .error (.keyError "parameters")
  | some params =>
    match st.machine_state.canned_cycle.mode with
    | "" => .error (.syntaxError "Canned cycle line (X,Y) appeared outside canned cycle")
    | "G81.1" => do
      let st ← G00 showV cosd sind [("X", X), ("Y", Y)] st
      let L : ℚ := (lookupQ "L" params).getD 1
      drillLoop showV cosd sind g04style params (Int.toNat (ratCeil L)) st
    | _ => .ok st

/-- `G81_1` (lines 557-581): enter the drilling cycle.  Validates the
allow-list, the required set `Z R F X Y`, and the `D`/`A`
both-or-neither rule; sets the mode tag, stores all parameters except
`X`,`Y` under the `"parameters"` key, and dispatches the first coordinate
pair through `canned_cycle_xy`. -/
def G81_1 (kwargs : List (String × ℚ)) (st : ModuleState) : Except GErr ModuleState :=
  let keys := kwargs.map (fun p => p.1)
  let illegal := keys.filter
    (fun k => ¬ k ∈ (["Z", "R", "F", "X", "Y", "L", "P", "D", "A"] : List String))
  if illegal ≠ [] then
    .error (.valueError "G81.1 contains unexpected parameter(s)" illegal)
  else
    let missing := (["Z", "R", "F", "X", "Y"] : List String).filter (fun k => ¬ k ∈ keys)
    if missing ≠ [] then
      .error (.valueError "G81.1 necessary parameter(s) missing" missing)
    else if keys.contains "D" ≠ keys.contains "A" then
      .error (.valueError
        "G81.1 parameters D and A must either provided together, or not provided at all."
        [])
    else
      match lookupQ "X" kwargs, lookupQ "Y" kwargs with
      | some x, some y =>
        let rest := kwargs.filter (fun p => ¬ (p.1 = "X" ∨ p.1 = "Y"))
        let st := { st with machine_state := { st.machine_state with
          canned_cycle := { st.machine_state.canned_cycle with
            mode := "G81.1", parameters := some rest } } }
        canned_cycle_xy showV cosd sind g04style x y st
      | _, _ =>
        -- unreachable: the `missing` check guarantees `X` and `Y` are present
        .error (.keyError "X")

end Handlers2

/-- `M03` (lines 685-715): start spindle; the RPM must be a Python `int`. -/
def M03 (S : PyNum) (st : ModuleState) : Except GErr ModuleState :=
  match S with
  | .f _ => .error (.typeError "M03 spindle RPM must be an integer")
  | .i z =>
    .ok { st with
      machine_state := { st.machine_state with
        spindle_state := "on", spindle_rpm := (z : ℚ) }
      exec_result := st.exec_result ++ cs "M03 S" ++ (toString z).data ++ ['\n'] }

/-- `M05` (lines 717-742): stop spindle.  NOTE: the source writes
`machine_state["spindle_RPM"] = 0` - a new dict key distinct from
`"spindle_rpm"`, which therefore keeps its value. -/
def M05 (is_line_end : Bool) (st : ModuleState) : ModuleState :=
  { st with
    machine_state := { st.machine_state with
      spindle_RPM := some 0, spindle_state := "off" }
    exec_result := st.exec_result ++ (if is_line_end then cs "M05\n" else cs "M05 ") }

/-- `M30` (lines 744-765): end of program.  NOTE: faithfully to the source,
the emitted text is `"M05\n"` / `"M05 "`, not `"M30..."`. -/
def M30 (is_line_end : Bool) (st : ModuleState) : ModuleState :=
  { st with exec_result :=
      st.exec_result ++ (if is_line_end then cs "M05\n" else cs "M05 ") }

/-! ## `frange` (src/transpiler/py_execute.py lines 51-85) -/

/-- `math.isclose` with its default tolerances
(`rel_tol = 1e-9`, `abs_tol = 0.0`). -/
def isclose (a b : ℚ) : Bool :=
  |a - b| ≤ max ((1 / 1000000000) * max |a| |b|) 0

/-- The `while` loop of `frange`: emit `i` and advance by `step` while
`cond i` holds.  The fuel argument bounds the iteration count; `frange`
passes `⌈(stop - start) / step⌉ + 1`, which the direction/sign guard makes
an upper bound on the number of guard-true iterations. -/
def frangeGo (cond : ℚ → Bool) (step : ℚ) : Nat → ℚ → List ℚ
  | 0, _ => []
  | n + 1, i => if cond i then i :: frangeGo cond step n (i + step) else []

/-- `frange(start, stop, step)`: zero step is rejected first; then the
loop runs only under `step > 0 ∧ stop > start` or `step < 0 ∧ start > stop`;
otherwise the structural infinite-loop check rejects the call before any
element is produced. -/
def frange (start stop step : ℚ) : Except GErr (List ℚ) :=
  if step = 0 then .error (.valueError "Loop step must be non-zero" [])
  else if 0 < step ∧ start < stop then
    .ok (frangeGo (fun i => decide (i < stop) && ! isclose i stop) step
      (Int.toNat (ratCeil ((stop - start) / step)) + 1) start)
  else if step < 0 ∧ stop < start then
    .ok (frangeGo (fun i => decide (stop < i) && ! isclose i stop) step
      (Int.toNat (ratCeil ((stop - start) / step)) + 1) start)
  else .error (.valueError "frange(): Infinite loop detected" [])

/-! ## The `exec` namespace and `python_to_gcode`
(src/transpiler/py_execute.py lines 40-44 and 767-814) -/

/-- The keys of `exec_ns`: the *only* names resolvable inside the sandboxed
`exec`.  Note that the canned-cycle dispatcher is registered as
`"canned_cycle_xy"`, and that `"M30"` is not registered at all. -/
def execNsNames : List String :=
  ["__builtins__",
   "cos", "sin", "tan", "PI", "E", "abs", "sqrt", "pow", "log", "exp",
   "round", "frange", "console_print",
   "G00", "G01", "G02", "G03", "G04", "G15", "G16", "G17", "G18", "G19",
   "G20", "G21",
   "canned_cycle_xy",
   "G80", "G81_1", "G90", "G91", "G93", "G94", "M03", "M05"]

/-- The zero-argument modal commands that take a single line-end flag and
never raise. -/
inductive BCmd where
  | g15 | g17 | g18 | g19 | g20 | g21 | g80 | g90 | g91 | g93 | g94 | m05
  deriving DecidableEq, Repr

/-- Dispatch a line-end-flag command to its handler. -/
def runBCmd : BCmd → Bool → ModuleState → ModuleState
  | .g15 => G15
  | .g17 => G17
  | .g18 => G18
  | .g19 => G19
  | .g20 => G20
  | .g21 => G21
  | .g80 => G80
  | .g91 => G91
  | .g90 => G90
  | .g93 => G93
  | .g94 => G94
  | .m05 => M05

/-- Modelled from the spec (section 4.5): the sandboxed evaluator is the
host interpreter's `exec`; we model the statement forms the claims
exercise - calls to the flag commands and to `G16`. -/
inductive Instr where
  | callBool (c : BCmd) (b : Bool)
  | callG16 (x y : ℚ)
  deriving DecidableEq, Repr

/-- Execute one statement of the intermediate program. -/
def execInstr : Instr → ModuleState → ModuleState
  | .callBool c b, st => runBCmd c b st
  | .callG16 x y, st => G16 x y st

/-- Execute an intermediate program statement by statement, threading the
module globals. -/
def execProg (code : List Instr) (st : ModuleState) : ModuleState :=
  code.foldl (fun st i => execInstr i st) st

/-- `python_to_gcode` (lines 40-44): clear `exec_result` ("clear old
result"), run the program, and hand back the buffer.  The machine state is
*not* touched by the reset; the returned `ModuleState` is the module's
persistent global state after this compilation. -/
def python_to_gcode (code : List Instr) (st : ModuleState) :
    List Char × ModuleState :=
  let st1 : ModuleState := { st with exec_result := [] }
  let st2 := execProg code st1
  (st2.exec_result, st2)

/-! ## Line classifier & translator
(`xgc_to_python`, src/transpiler/xgc_to_py.py lines 50-220) -/

/-- The maximal run of non-`\s` characters at the head (a greedy `[^\s]+`,
possibly empty). -/
def takeNonSpace (l : List Char) : List Char :=
  l.takeWhile (fun c => ¬ isPySpace c)

/-- What remains after `takeNonSpace`. -/
def dropNonSpace (l : List Char) : List Char :=
  l.dropWhile (fun c => ¬ isPySpace c)

/-- Match `([^\s]+)\s+Y([^\s]+)` right after a literal `X`: the greedy
groups are forced, because a shorter `[^\s]+` would leave a non-space
character where `\s` or nothing must match.  Returns both groups and the
rest of the line. -/
def tryXY (l : List Char) : Option (List Char × List Char × List Char) :=
  let g1 := takeNonSpace l
  if g1 = [] then none
  else
    let r1 := dropNonSpace l
    let ws := r1.takeWhile isPySpace
    if ws = [] then none
    else
      match r1.dropWhile isPySpace with
      | 'Y' :: r2 =>
        let g2 := takeNonSpace r2
        if g2 = [] then none else some (g1, g2, dropNonSpace r2)
      | _ => none

/-- `re.sub(r"X([^\s]+)\s+Y([^\s]+)", r"canned_cycle(X=\1, Y=\2)", line)`
(translator case 1).  Fuel: the remaining length; every step consumes at
least one character. -/
def subXYF : Nat → List Char → List Char
  | 0, l => l
  | _ + 1, [] => []
  | n + 1, c :: rest =>
    if c = 'X' then
      match tryXY rest with
      | some (g1, g2, r) =>
        cs "canned_cycle(X=" ++ g1 ++ cs ", Y=" ++ g2 ++ [')'] ++ subXYF n r
      | none => c :: subXYF n rest
    else c :: subXYF n rest

/-- Wrapper instantiating the fuel. -/
def subXY (l : List Char) : List Char := subXYF (l.length + 1) l

/-- `re.sub(r"X([^\s]+)", r"canned_cycle(X=\1)", line)` (translator case 2). -/
def subXF : Nat → List Char → List Char
  | 0, l => l
  | _ + 1, [] => []
  | n + 1, c :: rest =>
    if c = 'X' then
      match takeNonSpace rest with
      | [] => c :: subXF n rest
      | g => cs "canned_cycle(X=" ++ g ++ [')'] ++ subXF n (dropNonSpace rest)
    else c :: subXF n rest

/-- Wrapper instantiating the fuel. -/
def subX (l : List Char) : List Char := subXF (l.length + 1) l

/-- `re.sub(r"Y([^\s]+)", r"canned_cycle(Y=\1)", line)` (translator case 3). -/
def subYF : Nat → List Char → List Char
  | 0, l => l
  | _ + 1, [] => []
  | n + 1, c :: rest =>
    if c = 'Y' then
      match takeNonSpace rest with
      | [] => c :: subYF n rest
      | g => cs "canned_cycle(Y=" ++ g ++ [')'] ++ subYF n (dropNonSpace rest)
    else c :: subYF n rest

/-- Wrapper instantiating the fuel. -/
def subY (l : List Char) : List Char := subYF (l.length + 1) l

/-- `re.findall(r"([A-Z])([^\s]+)", param_str)`: every uppercase ASCII
letter directly followed by a nonempty non-space run, scanning
non-overlapping matches left to right. -/
def findAZF : Nat → List Char → List (Char × List Char)
  | 0, _ => []
  | _ + 1, [] => []
  | n + 1, c :: rest =>
    if 'A' ≤ c ∧ c ≤ 'Z' then
      match takeNonSpace rest with
      | [] => findAZF n rest
      | g => (c, g) :: findAZF n (dropNonSpace rest)
    else findAZF n rest

/-- Wrapper instantiating the fuel. -/
def findAZ (l : List Char) : List (Char × List Char) := findAZF (l.length + 1) l

/-- `xgc_line.split(None, maxsplit=1)` when it yields two parts; `none`
models the `ValueError` of unpacking fewer than two parts. -/
def splitNone1 (l : List Char) : Option (List Char × List Char) :=
  let l1 := l.dropWhile isPySpace
  let tok := takeNonSpace l1
  if tok = [] then none
  else
    let rest := (dropNonSpace l1).dropWhile isPySpace
    if rest = [] then none else some (tok, rest)

/-- `_xgc_line_to_func` (lines 188-220): leading whitespace is everything
before the first `G` or `M` (`re.split(r"[GM]", line, maxsplit=1)[0]`);
then `<command>(<K>=<v>, ...)` from the `([A-Z])([^\s]+)` pairs. -/
def xgcLineToFunc (line : List Char) : Except GErr (List Char) :=
  let leading := line.takeWhile (fun c => ¬ (c = 'G' ∨ c = 'M'))
  match splitNone1 line with
  | none => .error (.valueError "not enough values to unpack" [])
  | some (command, paramStr) =>
    let pairs := findAZ paramStr
    .ok (leading ++ command ++ ['('] ++
      joinSep (cs ", ") (pairs.map (fun p => p.1 :: '=' :: p.2)) ++ [')'])

/-- The fixed set of parameterless commands (lines 81-84). -/
def paramlessCmds : List (List Char) :=
  [cs "G15", cs "G17", cs "G18", cs "G19", cs "G20", cs "G21", cs "G90",
   cs "G91", cs "G93", cs "G94", cs "M05", cs "M30"]

/-- Translate one normalized line (the body of `xgc_to_python`'s loop,
lines 86-152), returning the Python text this line contributes.
`isVarDecl` abstracts `_is_variable_declaration`, which delegates to the
host interpreter's `ast.parse`; at every input used in a theorem below the
stub's value is justified against the Python parser in a comment. -/
def xgcToPyLine (isVarDecl : List Char → Bool) (line : List Char) :
    Except GErr (List Char) :=
  match pyStrip line with
  | [] => .error (.indexError "string index out of range")
  | c :: strippedRest =>
    let stripped := c :: strippedRest
    if c.isLower ∨ isVarDecl stripped then .ok (line ++ ['\n'])
    else
      let tokens := pySplit stripped
      let keys := tokens.filterMap List.head?
      if keys.contains 'X' ∧ keys.contains 'Y' ∧
          keys.all (fun k => k = 'X' ∨ k = 'Y') then
        .ok (subXY line ++ ['\n'])
      else if keys.contains 'X' ∧ keys.all (fun k => k = 'X') then
        .ok (subX line ++ ['\n'])
      else if keys.contains 'Y' ∧ keys.all (fun k => k = 'Y') then
        .ok (subY line ++ ['\n'])
      else if tokens.all (fun t => t ∈ paramlessCmds) then
        .ok (joinSep (cs "(False)\n") tokens ++ cs "(True)\n")
      else (xgcLineToFunc line).map (fun code => code ++ ['\n'])

/-- The line loop of `xgc_to_python`, attaching the 1-based counter over
normalized lines to the first error. -/
def xgcToPythonGo (isVarDecl : List Char → Bool) :
    Nat → List (List Char) → Except (Nat × GErr) (List Char)
  | _, [] => .ok []
  | n, line :: rest =>
    match xgcToPyLine isVarDecl line with
    | .error e => .error (n + 1, e)
    | .ok code => (xgcToPythonGo isVarDecl (n + 1) rest).map (fun more => code ++ more)

/-- `xgc_to_python` (lines 50-158). -/
def xgc_to_python (isVarDecl : List Char → Bool) (script : List Char) :
    Except (Nat × GErr) (List Char) :=
  xgcToPythonGo isVarDecl 0 (splitLines script)

/-! ## Numeric rounding pass
(`round_gcode`, src/transpiler/xgc_to_py.py lines 222-236)

A matched token's digits are parsed to an exact rational, and
`f"{v:.{prec}f}"` is modelled as fixed-point rendering after rounding
half-to-even at `prec` decimal digits (CPython formats the exact value of
the binary float with round-half-even; modelling floats as exact rationals,
this is the corresponding exact rendering). -/

/-- The decimal digit character for `d < 10`. -/
def digitChar (d : Nat) : Char :=
  match d with
  | 0 => '0' | 1 => '1' | 2 => '2' | 3 => '3' | 4 => '4'
  | 5 => '5' | 6 => '6' | 7 => '7' | 8 => '8' | 9 => '9'
  | _ => '*'

/-- Decimal digits of `n`, most significant first; fuel-recursive
(`natToStr` passes `n + 1`, enough since `n / 10` shrinks). -/
def natToStrGo : Nat → Nat → List Char
  | 0, _ => []
  | f + 1, n => if n = 0 then [] else natToStrGo f (n / 10) ++ [digitChar (n % 10)]

/-- Decimal rendering of a natural number. -/
def natToStr (n : Nat) : List Char :=
  if n = 0 then ['0'] else natToStrGo (n + 1) n

/-- Decimal rendering of an integer. -/
def intToStr (z : ℤ) : List Char :=
  if z < 0 then '-' :: natToStr z.natAbs else natToStr z.natAbs

/-- A plain rendering of a rational, used to instantiate `showV` in
witnesses (`n` or `n/d`). -/
def showQ (q : ℚ) : List Char :=
  if q.den = 1 then intToStr q.num else intToStr q.num ++ '/' :: natToStr q.den

/-- Round to the nearest integer, ties to even. -/
def roundHalfEven (x : ℚ) : ℤ :=
  let f : ℤ := ratFloor x
  let r : ℚ := x - (f : ℚ)
  if r < 1 / 2 then f
  else if 1 / 2 < r then f + 1
  else if f % 2 = 0 then f else f + 1

/-- `f"{v:.{prec}f}"`: fixed-point, exactly `prec` digits after the point
(no point at all when `prec = 0`), never scientific notation. -/
def formatFixed (prec : Nat) (q : ℚ) : List Char :=
  let n : ℤ := roundHalfEven (q * ((10 : ℚ) ^ prec))
  let m : Nat := n.natAbs
  let ip := m / 10 ^ prec
  let fp := m % 10 ^ prec
  let sign : List Char := if q < 0 then ['-'] else []
  let ds := natToStr fp
  let fracStr : List Char :=
    if prec = 0 then [] else '.' :: (List.replicate (prec - ds.length) '0' ++ ds)
  sign ++ natToStr ip ++ fracStr

/-- Numeric value of a digit run (most significant first). -/
def digitsVal (l : List Char) : Nat :=
  l.foldl (fun a c => a * 10 + (c.toNat - 48)) 0

/-- Greedy parse of `-?\d+(?:\.\d+)?` at the head: optional sign, a maximal
digit run, then - only if a `.` is directly followed by a digit - a maximal
fractional digit run.  Returns the value and the unconsumed rest. -/
def parseNum (l : List Char) : Option (ℚ × List Char) :=
  let (neg, l1) : Bool × List Char :=
    match l with
    | '-' :: r => (true, r)
    | _ => (false, l)
  let ip := l1.takeWhile Char.isDigit
  if ip = [] then none
  else
    let r1 := l1.dropWhile Char.isDigit
    let (v, rest) : ℚ × List Char :=
      match r1 with
      | '.' :: r2 =>
        let fp := r2.takeWhile Char.isDigit
        if fp = [] then ((digitsVal ip : ℚ), r1)
        else ((digitsVal ip : ℚ) + (digitsVal fp : ℚ) / (10 : ℚ) ^ fp.length,
          r2.dropWhile Char.isDigit)
      | _ => ((digitsVal ip : ℚ), r1)
    some (if neg then -v else v, rest)

/-- One `re.sub` pass of `round_gcode`: every `<letter><signed decimal>`
token with `letter ∈ letters` is reformatted through `formatFixed`;
fuel-recursive over the remaining text. -/
def roundSubF (letters : List Char) (prec : Nat) : Nat → List Char → List Char
  | 0, l => l
  | _ + 1, [] => []
  | n + 1, c :: rest =>
    if c ∈ letters then
      match parseNum rest with
      | some (q, r) => c :: (formatFixed prec q ++ roundSubF letters prec n r)
      | none => c :: roundSubF letters prec n rest
    else c :: roundSubF letters prec n rest

/-- Wrapper instantiating the fuel. -/
def roundSub (letters : List Char) (prec : Nat) (l : List Char) : List Char :=
  roundSubF letters prec (l.length + 1) l

/-- `round_gcode(crude_gcode, max_precision)` (lines 222-236): the
positional pass over `X`/`Y`/`Z` tokens at the first precision, then the
angular pass over `A`/`B`/`C` tokens at the second. -/
def round_gcode (max_precision : Nat × Nat) (crude : List Char) : List Char :=
  roundSub ['A', 'B', 'C'] max_precision.2
    (roundSub ['X', 'Y', 'Z'] max_precision.1 crude)

/-! ## Claims -/

/-- Claim C1, counterexample.  The claim says no Machine State field at the
start of a second compilation retains a value set during the first, and in
particular that polar mode enabled in one compilation is disabled at the
start of the next.  Compiling a program that runs `G16(X=5, Y=5)` and then
starting a second compilation (here: of the empty program, which executes
nothing, so its result state *is* the second compilation's start state),
the polar flag is still enabled and the origin still `(5, 5)`. -/
theorem c1_counterexample :
    (python_to_gcode []
      (python_to_gcode [Instr.callG16 5 5] initModuleState).2).2.machine_state.polar_mode.enabled
        = true ∧
    (python_to_gcode []
      (python_to_gcode [Instr.callG16 5 5] initModuleState).2).2.machine_state.polar_mode.cx
        = 5 ∧
    (python_to_gcode []
      (python_to_gcode [Instr.callG16 5 5] initModuleState).2).2.machine_state.polar_mode.cy
        = 5 := by
  refine ⟨rfl, by decide, by decide⟩

/-- Claim C1, amended: `python_to_gcode` resets only the output buffer
(`exec_result = ""`); the machine state is a module global that persists,
so at the start of any following compilation every Machine State field
still holds the value the previous compilation left in it. -/
theorem c1_state_persists :
    ∀ (st : ModuleState) (code : List Instr),
      python_to_gcode code st =
        ((execProg code { machine_state := st.machine_state, exec_result := [] }).exec_result,
          execProg code { machine_state := st.machine_state, exec_result := [] }) ∧
      (python_to_gcode [] st).2.machine_state = st.machine_state ∧
      (python_to_gcode [] st).1 = [] := by
  intro st code
  exact ⟨rfl, rfl, rfl⟩

/-- Claim C2.  `M05` does append exactly `"M05\n"` / `"M05 "`, but `M30`
appends `"M05\n"` / `"M05 "` as well - not its own code `"M30..."` - and
`"M30"` is not even registered in the `exec` namespace.  The evaluation
below exhibits the divergence at the failing input `M30(True)`. -/
theorem c2_m05_m30_emission :
    (M05 true initModuleState).exec_result = cs "M05\n" ∧
    (M05 false initModuleState).exec_result = cs "M05 " ∧
    (M30 true initModuleState).exec_result = cs "M05\n" ∧
    (M30 false initModuleState).exec_result = cs "M05 " ∧
    cs "M05\n" ≠ cs "M30\n" ∧
    ¬ ("M30" : String) ∈ execNsNames := by
  refine ⟨rfl, rfl, rfl, rfl, by decide, by decide⟩

/-- Claim C5.  Compiling `"G17 G90 G21"`: the normalizer leaves the line
unchanged, the translator classifies it as a parameterless command line
(the `isVarDecl` stub is `false` there, as `ast.parse("G17 G90 G21")`
raises `SyntaxError`), executing the three calls from a fresh module state
produces exactly `"G17 G90 G21\n"`, the machine state ends with
`arc_plane = "XY"`, `positioning = "absolute"`, `unit = "mm"`, and the
rounding pass leaves the output untouched at every precision pair. -/
theorem c5_safety_line_compiles :
    xgc_strip (cs "G17 G90 G21") = cs "G17 G90 G21" ∧
    xgc_to_python (fun _ => false) (cs "G17 G90 G21") =
      .ok (cs "G17(False)\nG90(False)\nG21(True)\n") ∧
    (python_to_gcode
        [Instr.callBool .g17 false, Instr.callBool .g90 false, Instr.callBool .g21 true]
        initModuleState).1 = cs "G17 G90 G21\n" ∧
    (python_to_gcode
        [Instr.callBool .g17 false, Instr.callBool .g90 false, Instr.callBool .g21 true]
        initModuleState).2.machine_state.arc_plane = "XY" ∧
    (python_to_gcode
        [Instr.callBool .g17 false, Instr.callBool .g90 false, Instr.callBool .g21 true]
        initModuleState).2.machine_state.positioning = "absolute" ∧
    (python_to_gcode
        [Instr.callBool .g17 false, Instr.callBool .g90 false, Instr.callBool .g21 true]
        initModuleState).2.machine_state.unit = "mm" ∧
    (∀ pp ap : Nat, round_gcode (pp, ap) (cs "G17 G90 G21\n") = cs "G17 G90 G21\n") := by
  refine ⟨by decide, rfl, by decide, rfl, rfl, rfl, fun pp ap => rfl⟩

/-- A module state in which the drilling cycle is active with stored
`Z = -5`, `R = 2`, `F = 100` - exactly what `G81_1(Z=-5, R=2, F=100, ...)`
stores. -/
def drillState : ModuleState :=
  { initModuleState with
    machine_state := { initMachineState with
      canned_cycle :=
        ⟨"G81.1", [], some [("Z", -5), ("R", 2), ("F", 100)]⟩ } }

/-- Claim C3.  The translator does rewrite a coordinate-only line to
`canned_cycle(X=..., Y=...)` (the `isVarDecl` stub is `false` there:
`ast.parse("X5 Y5")` raises `SyntaxError`), and the cycle-expansion
routine itself works as described - but the `exec` namespace registers it
under the name `"canned_cycle_xy"` and binds no name `"canned_cycle"`, so
evaluating the rewritten call raises `NameError` instead of expanding the
cycle.  The last two conjuncts show the two no-mode failure shapes of the
dispatcher itself (fresh state: `KeyError "parameters"`; after `G80`:
`SyntaxError`). -/
theorem c3_canned_cycle_dispatch :
    xgc_to_python (fun _ => false) (cs "X5 Y5") =
      .ok (cs "canned_cycle(X=5, Y=5)\n") ∧
    ¬ ("canned_cycle" : String) ∈ execNsNames ∧
    ("canned_cycle_xy" : String) ∈ execNsNames ∧
    canned_cycle_xy showQ (fun _ => 0) (fun _ => 1) "RS-274" 5 5 drillState =
      .ok { drillState with
        exec_result := cs "G00 X5 Y5\nG01 Z-5 F100\nG00 Z2\n" } ∧
    canned_cycle_xy showQ (fun _ => 0) (fun _ => 1) "RS-274" 5 5 initModuleState =
      .error (.keyError "parameters") ∧
    canned_cycle_xy showQ (fun _ => 0) (fun _ => 1) "RS-274" 5 5
        (G80 true initModuleState) =
      .error (.syntaxError "Canned cycle line (X,Y) appeared outside canned cycle") := by
  refine ⟨rfl, by decide, by decide, rfl, rfl, rfl⟩

/-- Claim C10.  `M05` never changes `spindle_rpm` (the source writes the
distinct, typo key `"spindle_RPM"`): the field holds the same value after
the call as before it, while the spindle state is set to `"off"` and the
text is appended; composed after `M03 S`, the stored RPM is still `S`. -/
theorem c10_m05_preserves_rpm :
    ∀ (b : Bool) (st : ModuleState),
      (M05 b st).machine_state.spindle_rpm = st.machine_state.spindle_rpm ∧
      (M05 b st).machine_state.spindle_state = "off" ∧
      (M05 b st).exec_result =
        st.exec_result ++ (if b then cs "M05\n" else cs "M05 ") ∧
      (∀ z : ℤ, ∃ st1, M03 (.i z) st = .ok st1 ∧
        st1.machine_state.spindle_rpm = (z : ℚ) ∧
        (M05 b st1).machine_state.spindle_rpm = (z : ℚ)) := by
  intro b st
  exact ⟨rfl, rfl, rfl, fun z => ⟨_, rfl, rfl, rfl⟩⟩

/-- Claim C7.  Over any module state whose polar mode is disabled (fields
given componentwise): a `G81.1` entry with `Z R F X Y` supplied and `L`
omitted emits exactly one rapid move to `(X, Y)`, one plunge to `Z` at `F`
and one rapid retract to `R`; with `L = 3` it emits three plunge/retract
repetitions after the single rapid move; for any argument record passing
the allow-list but missing some of `Z R F X Y` it fails naming exactly the
missing letters; and supplying exactly one of `D`/`A` fails with the
both-or-neither error. -/
theorem c7_g81_drill :
    ∀ (showV : ℚ → List Char) (cosd sind : ℚ → ℚ) (g04style : String)
      (cx cy : ℚ) (cc : CannedCycle) (u p ss : String) (srpm : ℚ)
      (sR : Option ℚ) (fm apl : String) (buf : List Char) (z r f x y : ℚ),
      (G81_1 showV cosd sind g04style
          [("Z", z), ("R", r), ("F", f), ("X", x), ("Y", y)]
          ⟨⟨⟨false, cx, cy⟩, cc, u, p, ss, srpm, sR, fm, apl⟩, buf⟩ =
        .ok ⟨⟨⟨false, cx, cy⟩,
          ⟨"G81.1", cc.params, some [("Z", z), ("R", r), ("F", f)]⟩,
          u, p, ss, srpm, sR, fm, apl⟩,
          buf ++ emitKw "G00" showV [("X", x), ("Y", y)] ++
            emitKw "G01" showV [("Z", z), ("F", f)] ++
            emitKw "G00" showV [("Z", r)]⟩) ∧
      (G81_1 showV cosd sind g04style
          [("Z", z), ("R", r), ("F", f), ("X", x), ("Y", y), ("L", 3)]
          ⟨⟨⟨false, cx, cy⟩, cc, u, p, ss, srpm, sR, fm, apl⟩, buf⟩ =
        .ok ⟨⟨⟨false, cx, cy⟩,
          ⟨"G81.1", cc.params, some [("Z", z), ("R", r), ("F", f), ("L", 3)]⟩,
          u, p, ss, srpm, sR, fm, apl⟩,
          buf ++ emitKw "G00" showV [("X", x), ("Y", y)] ++
            emitKw "G01" showV [("Z", z), ("F", f)] ++
            emitKw "G00" showV [("Z", r)] ++
            emitKw "G01" showV [("Z", z), ("F", f)] ++
            emitKw "G00" showV [("Z", r)] ++
            emitKw "G01" showV [("Z", z), ("F", f)] ++
            emitKw "G00" showV [("Z", r)]⟩) ∧
      (∀ (kwargs : List (String × ℚ)) (st : ModuleState),
        (kwargs.map (fun q => q.1)).filter
            (fun k => ¬ k ∈ (["Z", "R", "F", "X", "Y", "L", "P", "D", "A"] : List String))
          = [] →
        (["Z", "R", "F", "X", "Y"] : List String).filter
            (fun k => ¬ k ∈ kwargs.map (fun q => q.1)) ≠ [] →
        G81_1 showV cosd sind g04style kwargs st =
          .error (.valueError "G81.1 necessary parameter(s) missing"
            ((["Z", "R", "F", "X", "Y"] : List String).filter
              (fun k => ¬ k ∈ kwargs.map (fun q => q.1))))) ∧
      (∀ (kwargs : List (String × ℚ)) (st : ModuleState),
        (kwargs.map (fun q => q.1)).filter
            (fun k => ¬ k ∈ (["Z", "R", "F", "X", "Y", "L", "P", "D", "A"] : List String))
          = [] →
        (["Z", "R", "F", "X", "Y"] : List String).filter
            (fun k => ¬ k ∈ kwargs.map (fun q => q.1)) = [] →
        (kwargs.map (fun q => q.1)).contains "D" ≠ (kwargs.map (fun q => q.1)).contains "A" →
        G81_1 showV cosd sind g04style kwargs st =
          .error (.valueError
            "G81.1 parameters D and A must either provided together, or not provided at all."
            [])) := by
  intro showV cosd sind g04style cx cy cc u p ss srpm sR fm apl buf z r f x y
  refine ⟨rfl, rfl, ?_, ?_⟩
  · intro kwargs st h1 h2
    simp only [G81_1]
    split_ifs with hA
    · exact absurd h1 hA
    · rfl
  · intro kwargs st h1 h2 h3
    simp only [G81_1]
    split_ifs with hA hB
    · exact absurd h1 hA
    · exact absurd h2 hB
    · rfl

/-- Witness for `c7_g81_drill`: at concrete inputs, omitting `Y` fails
naming `["Y"]`, and supplying `D` without `A` fails with the
both-or-neither error. -/
theorem c7_g81_drill_witness :
    G81_1 showQ (fun _ => 0) (fun _ => 1) "RS-274"
        [("Z", -5), ("R", 2), ("F", 100), ("X", 0)] initModuleState =
      .error (.valueError "G81.1 necessary parameter(s) missing" ["Y"]) ∧
    G81_1 showQ (fun _ => 0) (fun _ => 1) "RS-274"
        [("Z", -5), ("R", 2), ("F", 100), ("X", 0), ("Y", 0), ("D", 1)] initModuleState =
      .error (.valueError
        "G81.1 parameters D and A must either provided together, or not provided at all."
        []) := by
  have h := c7_g81_drill showQ (fun _ => 0) (fun _ => 1) "RS-274"
    0 0 ⟨"", [], none⟩ "" "" "" 0 none "" "" [] 0 0 0 0 0
  exact ⟨h.2.2.1 [("Z", -5), ("R", 2), ("F", 100), ("X", 0)] initModuleState
      (by decide) (by decide),
    h.2.2.2 [("Z", -5), ("R", 2), ("F", 100), ("X", 0), ("Y", 0), ("D", 1)] initModuleState
      (by decide) (by decide) (by decide)⟩

/-- Claim C9.  Over any module state whose polar mode is enabled with
origin `(cx, cy)` (fields given componentwise), for both motion commands:
with legal parameter letters, (i) if both `X` (radius) and `Y` (angle) are
present the emitted line carries `X = cx + r·cosd θ` and `Y = cy + r·sind θ`
in place (conversion before emission, other letters untouched); (ii) `X`
without `Y` fails naming `Y`; (iii) `Y` without `X` fails naming `X`;
(iv) with neither, the record passes through unchanged. -/
theorem c9_polar_motion :
    ∀ (showV : ℚ → List Char) (cosd sind : ℚ → ℚ)
      (cx cy : ℚ) (cc : CannedCycle) (u p ss : String) (srpm : ℚ)
      (sR : Option ℚ) (fm apl : String) (buf : List Char)
      (kwargs : List (String × ℚ)),
      ((kwargs.map (fun q => q.1)).filter
          (fun k => ¬ k ∈ (["X", "Y", "Z", "A", "B", "C"] : List String)) = [] →
        (∀ r θ, lookupQ "X" kwargs = some r → lookupQ "Y" kwargs = some θ →
          G00 showV cosd sind kwargs ⟨⟨⟨true, cx, cy⟩, cc, u, p, ss, srpm, sR, fm, apl⟩, buf⟩ =
            .ok ⟨⟨⟨true, cx, cy⟩, cc, u, p, ss, srpm, sR, fm, apl⟩,
              buf ++ emitKw "G00" showV
                (updSnd "Y" (cy + r * sind θ) (updSnd "X" (cx + r * cosd θ) kwargs))⟩) ∧
        (∀ r, lookupQ "X" kwargs = some r → lookupQ "Y" kwargs = none →
          G00 showV cosd sind kwargs ⟨⟨⟨true, cx, cy⟩, cc, u, p, ss, srpm, sR, fm, apl⟩, buf⟩ =
            .error (.valueError "G00 (polar mode) needs argument Y" ["Y"])) ∧
        (∀ θ, lookupQ "X" kwargs = none → lookupQ "Y" kwargs = some θ →
          G00 showV cosd sind kwargs ⟨⟨⟨true, cx, cy⟩, cc, u, p, ss, srpm, sR, fm, apl⟩, buf⟩ =
            .error (.valueError "G00 (polar mode) needs argument X" ["X"])) ∧
        (lookupQ "X" kwargs = none → lookupQ "Y" kwargs = none →
          G00 showV cosd sind kwargs ⟨⟨⟨true, cx, cy⟩, cc, u, p, ss, srpm, sR, fm, apl⟩, buf⟩ =
            .ok ⟨⟨⟨true, cx, cy⟩, cc, u, p, ss, srpm, sR, fm, apl⟩,
              buf ++ emitKw "G00" showV kwargs⟩)) ∧
      ((kwargs.map (fun q => q.1)).filter
          (fun k => ¬ k ∈ (["X", "Y", "Z", "A", "B", "C", "F"] : List String)) = [] →
        (∀ r θ, lookupQ "X" kwargs = some r → lookupQ "Y" kwargs = some θ →
          G01 showV cosd sind kwargs ⟨⟨⟨true, cx, cy⟩, cc, u, p, ss, srpm, sR, fm, apl⟩, buf⟩ =
            .ok ⟨⟨⟨true, cx, cy⟩, cc, u, p, ss, srpm, sR, fm, apl⟩,
              buf ++ emitKw "G01" showV
                (updSnd "Y" (cy + r * sind θ) (updSnd "X" (cx + r * cosd θ) kwargs))⟩) ∧
        (∀ r, lookupQ "X" kwargs = some r → lookupQ "Y" kwargs = none →
          G01 showV cosd sind kwargs ⟨⟨⟨true, cx, cy⟩, cc, u, p, ss, srpm, sR, fm, apl⟩, buf⟩ =
            .error (.valueError "G01 (polar mode) needs an extra argument: Y" ["Y"])) ∧
        (∀ θ, lookupQ "X" kwargs = none → lookupQ "Y" kwargs = some θ →
          G01 showV cosd sind kwargs ⟨⟨⟨true, cx, cy⟩, cc, u, p, ss, srpm, sR, fm, apl⟩, buf⟩ =
            .error (.valueError "G01 (polar mode) needs an extra argument: X" ["X"])) ∧
        (lookupQ "X" kwargs = none → lookupQ "Y" kwargs = none →
          G01 showV cosd sind kwargs ⟨⟨⟨true, cx, cy⟩, cc, u, p, ss, srpm, sR, fm, apl⟩, buf⟩ =
            .ok ⟨⟨⟨true, cx, cy⟩, cc, u, p, ss, srpm, sR, fm, apl⟩,
              buf ++ emitKw "G01" showV kwargs⟩)) := by
  intro showV cosd sind cx cy cc u p ss srpm sR fm apl buf kwargs
  constructor
  · intro h1
    refine ⟨?_, ?_, ?_, ?_⟩
    · intro r θ hx hy
      simp only [G00]
      split_ifs with hI
      · exact absurd h1 hI
      · rw [hx, hy]
        rfl
    · intro r hx hy
      simp only [G00]
      split_ifs with hI
      · exact absurd h1 hI
      · rw [hx, hy]
        rfl
    · intro θ hx hy
      simp only [G00]
      split_ifs with hI
      · exact absurd h1 hI
      · rw [hx, hy]
        rfl
    · intro hx hy
      simp only [G00]
      split_ifs with hI
      · exact absurd h1 hI
      · rw [hx, hy]
        rfl
  · intro h1
    refine ⟨?_, ?_, ?_, ?_⟩
    · intro r θ hx hy
      simp only [G01]
      split_ifs with hI
      · exact absurd h1 hI
      · rw [hx, hy]
        rfl
    · intro r hx hy
      simp only [G01]
      split_ifs with hI
      · exact absurd h1 hI
      · rw [hx, hy]
        rfl
    · intro θ hx hy
      simp only [G01]
      split_ifs with hI
      · exact absurd h1 hI
      · rw [hx, hy]
        rfl
    · intro hx hy
      simp only [G01]
      split_ifs with hI
      · exact absurd h1 hI
      · rw [hx, hy]
        rfl

/-- Witness for `c9_polar_motion`: polar mode on with origin `(0, 0)`,
`G00(X=10, Y=90)` with stub trig `cosd = 0`-const, `sind = 1`-const
rewrites the record to the converted Cartesian pair, and `G00(X=10)`
fails naming `Y`. -/
theorem c9_polar_motion_witness :
    G00 showQ (fun _ => 0) (fun _ => 1) [("X", 10), ("Y", 90)]
        ⟨⟨⟨true, 0, 0⟩, ⟨"", [], none⟩, "mm", "absolute", "off", 0, none, "normal", "XY"⟩, []⟩ =
      .ok ⟨⟨⟨true, 0, 0⟩, ⟨"", [], none⟩, "mm", "absolute", "off", 0, none, "normal", "XY"⟩,
        emitKw "G00" showQ
          (updSnd "Y" ((0 : ℚ) + 10 * 1) (updSnd "X" ((0 : ℚ) + 10 * 0) [("X", 10), ("Y", 90)]))⟩ ∧
    G00 showQ (fun _ => 0) (fun _ => 1) [("X", 10)]
        ⟨⟨⟨true, 0, 0⟩, ⟨"", [], none⟩, "mm", "absolute", "off", 0, none, "normal", "XY"⟩, []⟩ =
      .error (.valueError "G00 (polar mode) needs argument Y" ["Y"]) := by
  have h10 := (c9_polar_motion showQ (fun _ => 0) (fun _ => 1) 0 0 ⟨"", [], none⟩
    "mm" "absolute" "off" 0 none "normal" "XY" [] [("X", 10), ("Y", 90)]).1 (by decide)
  have h01 := (c9_polar_motion showQ (fun _ => 0) (fun _ => 1) 0 0 ⟨"", [], none⟩
    "mm" "absolute" "off" 0 none "normal" "XY" [] [("X", 10)]).1 (by decide)
  exact ⟨h10.1 10 90 rfl rfl, h01.2.1 10 rfl rfl⟩

instance {ε α : Type} [DecidableEq ε] [DecidableEq α] : DecidableEq (Except ε α) :=
  fun a b =>
    match a, b with
    | .ok x, .ok y =>
      if h : x = y then .isTrue (by rw [h]) else .isFalse (fun hh => h (Except.ok.inj hh))
    | .error x, .error y =>
      if h : x = y then .isTrue (by rw [h]) else .isFalse (fun hh => h (Except.error.inj hh))
    | .ok _, .error _ => .isFalse (fun hh => Except.noConfusion hh)
    | .error _, .ok _ => .isFalse (fun hh => Except.noConfusion hh)

/-- The loop emits its starting value first (or nothing at all). -/
theorem frangeGo_head (cond : ℚ → Bool) (step : ℚ) :
    ∀ (n : Nat) (i : ℚ),
      frangeGo cond step n i = [] ∨ (frangeGo cond step n i).head? = some i := by
  intro n i
  cases n with
  | zero => exact Or.inl rfl
  | succ n =>
    simp only [frangeGo]
    split_ifs with hc
    · exact Or.inr rfl
    · exact Or.inl rfl

/-- Every element the loop emits passed the loop guard. -/
theorem frangeGo_mem (cond : ℚ → Bool) (step : ℚ) :
    ∀ (n : Nat) (i x : ℚ), x ∈ frangeGo cond step n i → cond x = true := by
  intro n
  induction n with
  | zero => intro i x hx; simp [frangeGo] at hx
  | succ n ih =>
    intro i x hx
    simp only [frangeGo] at hx
    split_ifs at hx with hc
    · rcases List.mem_cons.mp hx with h | h
      · exact h ▸ hc
      · exact ih _ _ h
    · simp at hx

/-- Consecutive elements of the loop output differ by exactly `step`. -/
theorem frangeGo_chain (cond : ℚ → Bool) (step : ℚ) :
    ∀ (n : Nat) (i : ℚ),
      List.Chain' (fun a b => b = a + step) (frangeGo cond step n i) := by
  intro n
  induction n with
  | zero => intro i; simp [frangeGo]
  | succ n ih =>
    intro i
    simp only [frangeGo]
    split_ifs with hc
    · refine List.chain'_cons'.mpr ⟨?_, ih _⟩
      intro b hb
      rcases frangeGo_head cond step n (i + step) with h | h
      · rw [h] at hb; simp at hb
      · rw [h] at hb
        simp only [Option.mem_def, Option.some.injEq] at hb
        exact hb.symm
    · simp

/-- Claim C6.  `frange` fails (with the loop error, before producing any
element) exactly when the step is zero or its sign is inconsistent with
the direction from start to stop; otherwise it returns a finite list that
begins at `start` when nonempty, advances by `step` between consecutive
elements, and never contains `stop`; and the three cited examples. -/
theorem c6_frange_spec :
    (∀ start stop step : ℚ,
      (isErr (frange start stop step) = true ↔
        step = 0 ∨ (0 < step ∧ ¬ start < stop) ∨ (step < 0 ∧ ¬ stop < start)) ∧
      (∀ l, frange start stop step = .ok l →
        (l = [] ∨ l.head? = some start) ∧
        List.Chain' (fun a b => b = a + step) l ∧
        ¬ stop ∈ l)) ∧
    isErr (frange 1 5 0) = true ∧
    isErr (frange 1 5 (-1)) = true ∧
    frange 5 1 (-1) = .ok [5, 4, 3, 2] := by
  refine ⟨?_, by decide, by decide, by with_unfolding_all rfl⟩
  intro start stop step
  constructor
  · unfold frange
    split_ifs with h1 h2 h3
    · exact iff_of_true (by simp [isErr]) (Or.inl h1)
    · refine iff_of_false (by simp [isErr]) ?_
      rintro (h | ⟨hs, hns⟩ | ⟨hs, hns⟩)
      · exact h1 h
      · exact hns h2.2
      · linarith [h2.1]
    · refine iff_of_false (by simp [isErr]) ?_
      rintro (h | ⟨hs, hns⟩ | ⟨hs, hns⟩)
      · exact h1 h
      · linarith [h3.1]
      · exact hns h3.2
    · refine iff_of_true (by simp [isErr]) ?_
      rcases lt_trichotomy step 0 with hv | hv | hv
      · exact Or.inr (Or.inr ⟨hv, fun hc => h3 ⟨hv, hc⟩⟩)
      · exact Or.inl hv
      · exact Or.inr (Or.inl ⟨hv, fun hc => h2 ⟨hv, hc⟩⟩)
  · intro l hl
    unfold frange at hl
    split_ifs at hl with h1 h2 h3
    all_goals
      first
        | exact Except.noConfusion hl
        | (injection hl with hl'
           subst hl'
           refine ⟨(frangeGo_head _ _ _ _).imp id id, frangeGo_chain _ _ _ _,
             fun hmem => ?_⟩
           have hc := frangeGo_mem _ _ _ _ _ hmem
           simp only [Bool.and_eq_true, decide_eq_true_eq] at hc
           exact absurd hc.1 (lt_irrefl stop))

/-- Witness for `c6_frange_spec`: the ok-case properties at
`frange 5 1 (-1) = .ok [5, 4, 3, 2]`. -/
theorem c6_frange_spec_witness :
    (([5, 4, 3, 2] : List ℚ) = [] ∨ ([5, 4, 3, 2] : List ℚ).head? = some 5) ∧
    List.Chain' (fun a b => b = a + (-1)) ([5, 4, 3, 2] : List ℚ) ∧
    ¬ (1 : ℚ) ∈ ([5, 4, 3, 2] : List ℚ) :=
  ((c6_frange_spec.1 5 1 (-1)).2 [5, 4, 3, 2] c6_frange_spec.2.2.2)

/-- Digit characters for values below ten are decimal digit characters. -/
theorem digitChar_isDigit : ∀ d : Nat, d < 10 → (digitChar d).isDigit = true := by
  decide

/-- Every character `natToStrGo` produces is a decimal digit. -/
theorem natToStrGo_digits :
    ∀ (f n : Nat), ∀ c ∈ natToStrGo f n, c.isDigit = true := by
  intro f
  induction f with
  | zero => intro n c hc; simp [natToStrGo] at hc
  | succ f ih =>
    intro n c hc
    simp only [natToStrGo] at hc
    split_ifs at hc with h
    · simp at hc
    · rcases List.mem_append.mp hc with h' | h'
      · exact ih _ _ h'
      · rcases List.mem_singleton.mp h' with rfl
        exact digitChar_isDigit _ (Nat.mod_lt _ (by omega))

/-- `natToStr` never returns the empty list. -/
theorem natToStr_ne_nil (n : Nat) : natToStr n ≠ [] := by
  unfold natToStr
  split_ifs with h
  · simp
  · cases n with
    | zero => exact absurd rfl h
    | succ m =>
      simp only [natToStrGo, h]
      simp

/-- Every character of `natToStr n` is a decimal digit. -/
theorem natToStr_digits (n : Nat) : ∀ c ∈ natToStr n, c.isDigit = true := by
  intro c hc
  unfold natToStr at hc
  split_ifs at hc with h
  · rcases List.mem_singleton.mp hc with rfl; decide
  · exact natToStrGo_digits _ _ _ hc

/-- A number below `10 ^ k` renders in at most `k` digits. -/
theorem natToStrGo_length_le :
    ∀ (f n k : Nat), n < 10 ^ k → (natToStrGo f n).length ≤ k := by
  intro f
  induction f with
  | zero => intro n k _; simp [natToStrGo]
  | succ f ih =>
    intro n k hk
    simp only [natToStrGo]
    split_ifs with h
    · simp
    · cases k with
      | zero => omega
      | succ k' =>
        have hdiv : n / 10 < 10 ^ k' := by
          apply Nat.div_lt_of_lt_mul
          calc n < 10 ^ (k' + 1) := hk
            _ = 10 * 10 ^ k' := by ring
        have := ih (n / 10) k' hdiv
        simp only [List.length_append, List.length_singleton]
        omega

/-- Claim C8.  `formatFixed` - the model of `f"{v:.{prec}f}"` used by both
rounding passes - always renders fixed-point: an optional leading minus, a
nonempty run of digits, and (exactly when the precision is nonzero) a
point followed by exactly `prec` digits; in particular the character `e`
never occurs, so the output is never scientific notation.  The two cited
renders evaluate through the full `round_gcode` pass. -/
theorem c8_round_fixed_point :
    (∀ (q : ℚ) (prec : Nat), ∃ sgn ds fs : List Char,
      formatFixed prec q = sgn ++ ds ++ fs ∧
      (sgn = [] ∨ sgn = ['-']) ∧
      ds ≠ [] ∧ (∀ c ∈ ds, c.isDigit = true) ∧
      ((prec = 0 ∧ fs = []) ∨
        (∃ es, fs = '.' :: es ∧ es.length = prec ∧ ∀ c ∈ es, c.isDigit = true)) ∧
      ¬ 'e' ∈ formatFixed prec q) ∧
    round_gcode (2, 2) (cs "X3.14159") = cs "X3.14" ∧
    round_gcode (2, 0) (cs "A-45.0") = cs "A-45" := by
  refine ⟨?_, by with_unfolding_all rfl, by with_unfolding_all rfl⟩
  intro q prec
  refine ⟨_, _, _, rfl, ?_, natToStr_ne_nil _, natToStr_digits _, ?_, ?_⟩
  · split_ifs
    · exact Or.inr rfl
    · exact Or.inl rfl
  · split_ifs with hp
    · exact Or.inl ⟨hp, rfl⟩
    · refine Or.inr ⟨_, rfl, ?_, ?_⟩
      · have hlt : (roundHalfEven (q * 10 ^ prec)).natAbs % 10 ^ prec < 10 ^ prec :=
          Nat.mod_lt _ (Nat.pos_pow_of_pos prec (by omega))
        have hle : (natToStr ((roundHalfEven (q * 10 ^ prec)).natAbs % 10 ^ prec)).length
            ≤ prec := by
          unfold natToStr
          split_ifs with h0
          · simpa using Nat.pos_of_ne_zero hp
          · exact natToStrGo_length_le _ _ _ hlt
        simp only [List.length_append, List.length_replicate]
        omega
      · intro c hc
        rcases List.mem_append.mp hc with h' | h'
        · rcases List.eq_of_mem_replicate h' with rfl; decide
        · exact natToStr_digits _ _ h'
  · intro hmem
    unfold formatFixed at hmem
    rcases List.mem_append.mp hmem with h' | h'
    · rcases List.mem_append.mp h' with h'' | h''
      · split_ifs at h''
        · exact absurd (List.mem_singleton.mp h'') (by decide)
        · simp at h''
      · have := natToStr_digits _ _ h''
        simp [Char.isDigit] at this
    · split_ifs at h' with hp
      · simp at h'
      · rcases List.mem_cons.mp h' with h'' | h''
        · exact absurd h'' (by decide)
        · rcases List.mem_append.mp h'' with h3 | h3
          · exact absurd (List.eq_of_mem_replicate h3) (by decide)
          · have := natToStr_digits _ _ h3
            simp [Char.isDigit] at this

/-! ### Normalizer idempotence toolkit -/

/-- `splitOnNl` always yields at least one segment. -/
theorem splitOnNl_ne_nil (t : List Char) : splitOnNl t ≠ [] := by
  induction t with
  | nil => simp [splitOnNl]
  | cons c rest _ =>
    by_cases hc : c = '\n'
    · subst hc; simp [splitOnNl]
    · simp only [splitOnNl, hc]
      rcases splitOnNl rest with _ | ⟨l, ls⟩ <;> simp

/-- Pushing a head character through `joinSep`. -/
theorem joinSep_cons_head (sep : List Char) (c : Char) (l : List Char)
    (ls : List (List Char)) :
    joinSep sep ((c :: l) :: ls) = c :: joinSep sep (l :: ls) := by
  cases ls with
  | nil => rfl
  | cons y t => simp [joinSep]

/-- `joinSep ['\n']` undoes `splitOnNl`. -/
theorem joinSep_splitOnNl : ∀ t : List Char, joinSep ['\n'] (splitOnNl t) = t := by
  intro t
  induction t with
  | nil => rfl
  | cons c rest ih =>
    by_cases hc : c = '\n'
    · subst hc
      simp only [splitOnNl]
      rcases hsp : splitOnNl rest with _ | ⟨l, ls⟩
      · exact absurd hsp (splitOnNl_ne_nil rest)
      · rw [hsp] at ih
        simpa [joinSep] using ih
    · simp only [splitOnNl, hc]
      rcases hsp : splitOnNl rest with _ | ⟨l, ls⟩
      · exact absurd hsp (splitOnNl_ne_nil rest)
      · rw [hsp] at ih
        simpa [joinSep_cons_head] using ih

/-- Characters of a `splitOnNl` segment come from the original text. -/
theorem splitOnNl_subset :
    ∀ (t l : List Char), l ∈ splitOnNl t → ∀ c ∈ l, c ∈ t := by
  intro t
  induction t with
  | nil =>
    intro l hl c hc
    simp only [splitOnNl, List.mem_singleton] at hl
    subst hl
    simp at hc
  | cons a rest ih =>
    intro l hl c hc
    by_cases ha : a = '\n'
    · subst ha
      simp only [splitOnNl, List.mem_cons] at hl
      rcases hl with rfl | h
      · simp at hc
      · exact List.mem_cons_of_mem _ (ih _ h _ hc)
    · simp only [splitOnNl, ha] at hl
      rcases hsp : splitOnNl rest with _ | ⟨x, xs⟩ <;> rw [hsp] at hl
      · rcases List.mem_singleton.mp hl with rfl
        rcases List.mem_singleton.mp hc with rfl
        exact List.mem_cons_self _ _
      · rcases List.mem_cons.mp hl with rfl | h
        · rcases List.mem_cons.mp hc with rfl | h'
          · exact List.mem_cons_self _ _
          · exact List.mem_cons_of_mem _
              (ih _ (hsp ▸ List.mem_cons_self x xs) _ h')
        · exact List.mem_cons_of_mem _ (ih _ (hsp ▸ List.mem_cons_of_mem _ h) _ hc)

/-- A character of a `joinSep` comes from the separator or from a piece. -/
theorem mem_joinSep (sep : List Char) :
    ∀ (ls : List (List Char)) (c : Char),
      c ∈ joinSep sep ls → c ∈ sep ∨ ∃ l ∈ ls, c ∈ l
  | [], c, hc => by simp [joinSep] at hc
  | [x], c, hc => Or.inr ⟨x, by simp, by simpa [joinSep] using hc⟩
  | x :: y :: t, c, hc => by
    simp only [joinSep, List.append_assoc, List.mem_append] at hc
    rcases hc with h | h | h
    · exact Or.inr ⟨x, by simp, h⟩
    · exact Or.inl h
    · rcases mem_joinSep sep (y :: t) c h with h' | ⟨l, hl, hcl⟩
      · exact Or.inl h'
      · exact Or.inr ⟨l, List.mem_cons_of_mem _ hl, hcl⟩

/-- Comment stripping leaves no semicolon in a segment. -/
theorem segStrip_no_semi (seg : List Char) : ¬ ';' ∈ segStrip seg := by
  unfold segStrip
  split_ifs with h
  · intro hmem
    have h1 : ';' ∈ (seg.takeWhile (· ≠ ';')).reverse.dropWhile
        (fun c => c = ' ' ∨ c = '\t') := List.mem_reverse.mp hmem
    have h2 : ';' ∈ (seg.takeWhile (· ≠ ';')).reverse :=
      (List.dropWhile_sublist _).subset h1
    have h3 : ';' ∈ seg.takeWhile (· ≠ ';') := List.mem_reverse.mp h2
    have := List.mem_takeWhile_imp h3
    simp at this
  · exact h

/-- A segment without semicolon is untouched. -/
theorem segStrip_of_no_semi (seg : List Char) (h : ¬ ';' ∈ seg) :
    segStrip seg = seg := by
  unfold segStrip
  rw [if_neg h]

/-- The comment-stripping pass leaves no semicolon anywhere. -/
theorem stripComments_no_semi (s : List Char) : ¬ ';' ∈ stripComments s := by
  intro hmem
  rcases mem_joinSep _ _ _ hmem with h | ⟨l, hl, hcl⟩
  · simp at h
  · rcases List.mem_map.mp hl with ⟨seg, _, rfl⟩
    exact segStrip_no_semi seg hcl

/-- Comment stripping is the identity on semicolon-free text. -/
theorem stripComments_of_no_semi (t : List Char) (h : ¬ ';' ∈ t) :
    stripComments t = t := by
  unfold stripComments
  have hmap : ∀ seg ∈ splitOnNl t, segStrip seg = id seg := fun seg hseg =>
    segStrip_of_no_semi seg (fun hmem => h (splitOnNl_subset _ _ hseg _ hmem))
  rw [List.map_congr_left hmap, List.map_id]
  exact joinSep_splitOnNl t

/-- Equation: a `"\r\n"` pair opens a new line. -/
theorem splitLines_rn (rest : List Char) :
    splitLines ('\r' :: '\n' :: rest) = [] :: splitLines rest := rfl

/-- Equation: a lone break character opens a new line. -/
theorem splitLines_break (c : Char) (rest : List Char)
    (hne : ∀ r', c = '\r' → rest = '\n' :: r' → False)
    (hb : isBreakChar c = true) :
    splitLines (c :: rest) = [] :: splitLines rest := by
  rw [splitLines.eq_def]
  split
  · rename_i heq
    exact absurd heq (by simp)
  · rename_i r' heq
    injection heq with h1 h2
    exact (hne r' h1 h2).elim
  · rename_i hg heq
    injection heq with h1 h2
    subst h1
    subst h2
    rw [if_pos hb]

/-- Equation: an ordinary character extends the current line. -/
theorem splitLines_char (c : Char) (rest : List Char)
    (hne : ∀ r', c = '\r' → rest = '\n' :: r' → False)
    (hb : ¬ isBreakChar c = true) :
    splitLines (c :: rest) =
      (match splitLines rest with
       | [] => [[c]]
       | l :: ls => (c :: l) :: ls) := by
  rw [splitLines.eq_def]
  split
  · rename_i heq
    exact absurd heq (by simp)
  · rename_i r' heq
    injection heq with h1 h2
    exact (hne r' h1 h2).elim
  · rename_i hg heq
    injection heq with h1 h2
    subst h1
    subst h2
    rw [if_neg hb]

/-- Characters of a `splitLines` line come from the original text. -/
theorem splitLines_subset :
    ∀ (t l : List Char), l ∈ splitLines t → ∀ c ∈ l, c ∈ t := by
  intro t
  induction t using splitLines.induct with
  | case1 =>
    intro l hl c hc
    simp [splitLines] at hl
  | case2 rest ih =>
    intro l hl c hc
    rw [splitLines_rn] at hl
    rcases List.mem_cons.mp hl with rfl | h
    · simp at hc
    · exact List.mem_cons_of_mem _ (List.mem_cons_of_mem _ (ih _ h _ hc))
  | case3 a rest hne hb ih =>
    intro l hl c hc
    rw [splitLines_break a rest hne hb] at hl
    rcases List.mem_cons.mp hl with rfl | h
    · simp at hc
    · exact List.mem_cons_of_mem _ (ih _ h _ hc)
  | case4 a rest hne hb hsp ih =>
    intro l hl c hc
    rw [splitLines_char a rest hne hb, hsp] at hl
    rcases List.mem_singleton.mp hl with rfl
    rcases List.mem_singleton.mp hc with rfl
    exact List.mem_cons_self _ _
  | case5 a rest hne hb x xs hsp ih =>
    intro l hl c hc
    rw [splitLines_char a rest hne hb, hsp] at hl
    rcases List.mem_cons.mp hl with rfl | h
    · rcases List.mem_cons.mp hc with rfl | h'
      · exact List.mem_cons_self _ _
      · exact List.mem_cons_of_mem _
          (ih _ (hsp ▸ List.mem_cons_self x xs) _ h')
    · exact List.mem_cons_of_mem _ (ih _ (hsp ▸ List.mem_cons_of_mem _ h) _ hc)

/-- `splitLines` lines contain no break character. -/
theorem splitLines_no_break :
    ∀ (t l : List Char), l ∈ splitLines t → ∀ c ∈ l, isBreakChar c = false := by
  intro t
  induction t using splitLines.induct with
  | case1 =>
    intro l hl c hc
    simp [splitLines] at hl
  | case2 rest ih =>
    intro l hl c hc
    rw [splitLines_rn] at hl
    rcases List.mem_cons.mp hl with rfl | h
    · simp at hc
    · exact ih _ h _ hc
  | case3 a rest hne hb ih =>
    intro l hl c hc
    rw [splitLines_break a rest hne hb] at hl
    rcases List.mem_cons.mp hl with rfl | h
    · simp at hc
    · exact ih _ h _ hc
  | case4 a rest hne hb hsp ih =>
    intro l hl c hc
    rw [splitLines_char a rest hne hb, hsp] at hl
    rcases List.mem_singleton.mp hl with rfl
    rcases List.mem_singleton.mp hc with rfl
    exact Bool.not_eq_true _ ▸ (by simpa using hb)
  | case5 a rest hne hb x xs hsp ih =>
    intro l hl c hc
    rw [splitLines_char a rest hne hb, hsp] at hl
    rcases List.mem_cons.mp hl with rfl | h
    · rcases List.mem_cons.mp hc with rfl | h'
      · exact Bool.not_eq_true _ ▸ (by simpa using hb)
      · exact ih _ (hsp ▸ List.mem_cons_self x xs) _ h'
    · exact ih _ (hsp ▸ List.mem_cons_of_mem _ h) _ hc

/-- Break-free nonempty text is a single line. -/
theorem splitLines_of_break_free :
    ∀ x : List Char, (∀ c ∈ x, isBreakChar c = false) → x ≠ [] →
      splitLines x = [x] := by
  intro x
  induction x with
  | nil => intro _ hne; exact absurd rfl hne
  | cons c x' ih =>
    intro hfree _
    have hcb : isBreakChar c = false := hfree c (List.mem_cons_self _ _)
    have hne : ∀ r', c = '\r' → x' = '\n' :: r' → False := by
      intro r' hc _
      rw [hc] at hcb
      simp [isBreakChar] at hcb
    rw [splitLines_char c x' hne (by simp [hcb])]
    cases hx' : x' with
    | nil => rfl
    | cons d x'' =>
      rw [← hx', ih (fun a ha => hfree a (List.mem_cons_of_mem _ ha)) (by simp [hx'])]

/-- Prepending a break-free line and a newline prepends one line. -/
theorem splitLines_append_nl :
    ∀ (x z : List Char), (∀ c ∈ x, isBreakChar c = false) →
      splitLines (x ++ '\n' :: z) = x :: splitLines z := by
  intro x
  induction x with
  | nil =>
    intro z _
    have hne : ∀ r', '\n' = '\r' → z = '\n' :: r' → False := by
      intro r' hc _
      exact absurd hc (by decide)
    simpa using splitLines_break '\n' z hne (by decide)
  | cons c x' ih =>
    intro z hfree
    have hcb : isBreakChar c = false := hfree c (List.mem_cons_self _ _)
    have hne : ∀ r', c = '\r' → x' ++ '\n' :: z = '\n' :: r' → False := by
      intro r' hc _
      rw [hc] at hcb
      simp [isBreakChar] at hcb
    rw [List.cons_append, splitLines_char c (x' ++ '\n' :: z) hne (by simp [hcb]),
      ih z (fun a ha => hfree a (List.mem_cons_of_mem _ ha))]

/-- `splitLines` undoes `joinSep ['\n']` on nonempty lists of nonempty,
break-free lines. -/
theorem splitLines_joinSep :
    ∀ (ls : List (List Char)),
      (∀ l ∈ ls, ∀ c ∈ l, isBreakChar c = false) →
      (∀ l ∈ ls, l ≠ []) → ls ≠ [] →
      splitLines (joinSep ['\n'] ls) = ls
  | [], _, _, hne => absurd rfl hne
  | [x], hfree, hnil, _ => by
    simpa [joinSep] using
      splitLines_of_break_free x (hfree x (by simp)) (hnil x (by simp))
  | x :: y :: t, hfree, hnil, _ => by
    have hj : joinSep ['\n'] (x :: y :: t) = x ++ '\n' :: joinSep ['\n'] (y :: t) := by
      simp [joinSep]
    rw [hj, splitLines_append_nl x _ (hfree x (by simp)),
      splitLines_joinSep (y :: t) (fun l hl => hfree l (List.mem_cons_of_mem _ hl))
        (fun l hl => hnil l (List.mem_cons_of_mem _ hl)) (by simp)]

/-- Newline-free text is a single `splitOnNl` segment. -/
theorem splitOnNl_nl_free :
    ∀ x : List Char, ¬ '\n' ∈ x → splitOnNl x = [x] := by
  intro x
  induction x with
  | nil => intro _; rfl
  | cons c x' ih =>
    intro hmem
    have hc : ¬ c = '\n' := fun hc => hmem (hc ▸ List.mem_cons_self _ _)
    simp only [splitOnNl, hc]
    rw [ih (fun hm => hmem (List.mem_cons_of_mem _ hm))]

/-- Prepending a newline-free segment and a newline prepends one segment. -/
theorem splitOnNl_append_nl :
    ∀ (x z : List Char), ¬ '\n' ∈ x →
      splitOnNl (x ++ '\n' :: z) = x :: splitOnNl z := by
  intro x
  induction x with
  | nil => intro z _; rfl
  | cons c x' ih =>
    intro z hmem
    have hc : ¬ c = '\n' := fun hc => hmem (hc ▸ List.mem_cons_self _ _)
    rw [List.cons_append]
    simp only [splitOnNl, hc]
    rw [ih z (fun hm => hmem (List.mem_cons_of_mem _ hm))]

/-- `splitOnNl` undoes `joinSep ['\n']` on nonempty lists of newline-free
segments (the segments themselves may be empty). -/
theorem splitOnNl_joinSep :
    ∀ (ls : List (List Char)),
      (∀ l ∈ ls, ¬ '\n' ∈ l) → ls ≠ [] →
      splitOnNl (joinSep ['\n'] ls) = ls
  | [], _, hne => absurd rfl hne
  | [x], hfree, _ => by
    simpa [joinSep] using splitOnNl_nl_free x (hfree x (by simp))
  | x :: y :: t, hfree, _ => by
    have hj : joinSep ['\n'] (x :: y :: t) = x ++ '\n' :: joinSep ['\n'] (y :: t) := by
      simp [joinSep]
    rw [hj, splitOnNl_append_nl x _ (hfree x (by simp)),
      splitOnNl_joinSep (y :: t) (fun l hl => hfree l (List.mem_cons_of_mem _ hl))
        (by simp)]

/-- Bracket removal commutes with joining on newlines. -/
theorem removeBrackets_joinSep :
    ∀ ls : List (List Char),
      removeBrackets (joinSep ['\n'] ls) = joinSep ['\n'] (ls.map removeBrackets)
  | [] => rfl
  | [x] => rfl
  | x :: y :: t => by
    show removeBrackets (x ++ ['\n'] ++ joinSep ['\n'] (y :: t)) =
      removeBrackets x ++ ['\n'] ++ joinSep ['\n'] (List.map removeBrackets (y :: t))
    have hrec := removeBrackets_joinSep (y :: t)
    unfold removeBrackets at hrec ⊢
    rw [List.filter_append, List.filter_append, hrec]
    rfl

/-- The normalized output contains no semicolon. -/
theorem xgc_strip_no_semi (s : List Char) : ¬ ';' ∈ xgc_strip s := by
  intro hmem
  unfold xgc_strip removeBrackets at hmem
  have h1 := List.mem_of_mem_filter hmem
  rcases mem_joinSep _ _ _ h1 with h | ⟨l, hl, hcl⟩
  · simp at h
  · exact stripComments_no_semi s
      (splitLines_subset _ _ (List.mem_of_mem_filter hl) _ hcl)

/-- The normalized output contains no brackets. -/
theorem xgc_strip_no_brackets (s : List Char) :
    ∀ c ∈ xgc_strip s, ¬ (c = '[' ∨ c = ']') := by
  intro c hmem
  unfold xgc_strip removeBrackets at hmem
  simpa using List.of_mem_filter hmem

/-- Claim C4, amended: normalization is idempotent on every input whose
normalized output has no blank (empty or whitespace-only) line.  (A line
whose non-whitespace characters are all brackets survives the blank-line
filter but is blanked by bracket removal, so a second pass additionally
drops it - see the counterexample.) -/
theorem c4_strip_idempotent_no_blank :
    ∀ s : List Char,
      (∀ l ∈ splitOnNl (xgc_strip s), hasNonSpace l = true) →
      xgc_strip (xgc_strip s) = xgc_strip s := by
  intro s h
  have hdecomp : xgc_strip s =
      joinSep ['\n']
        (((splitLines (stripComments s)).filter hasNonSpace).map removeBrackets) := by
    unfold xgc_strip
    exact removeBrackets_joinSep _
  have hfree : ∀ l ∈ ((splitLines (stripComments s)).filter hasNonSpace).map removeBrackets,
      ∀ c ∈ l, isBreakChar c = false := by
    intro l hl c hc
    rcases List.mem_map.mp hl with ⟨l0, hl0, rfl⟩
    have hsub : c ∈ l0 := List.mem_of_mem_filter hc
    exact splitLines_no_break _ _ (List.mem_of_mem_filter hl0) _ hsub
  by_cases hnil :
      ((splitLines (stripComments s)).filter hasNonSpace).map removeBrackets = []
  · rw [hdecomp, hnil]
    rfl
  · have hsplit : splitOnNl (xgc_strip s) =
        ((splitLines (stripComments s)).filter hasNonSpace).map removeBrackets := by
      rw [hdecomp]
      refine splitOnNl_joinSep _ (fun l hl hmem => ?_) hnil
      have := hfree l hl '\n' hmem
      simp [isBreakChar] at this
    have hns : ∀ l ∈ ((splitLines (stripComments s)).filter hasNonSpace).map removeBrackets,
        hasNonSpace l = true := fun l hl => h l (hsplit ▸ hl)
    have hnonempty : ∀ l ∈ ((splitLines (stripComments s)).filter hasNonSpace).map removeBrackets,
        l ≠ [] := by
      intro l hl hemp
      have := hns l hl
      rw [hemp] at this
      simp [hasNonSpace] at this
    have h1 : stripComments (xgc_strip s) = xgc_strip s :=
      stripComments_of_no_semi _ (xgc_strip_no_semi s)
    have h2 : splitLines (xgc_strip s) =
        ((splitLines (stripComments s)).filter hasNonSpace).map removeBrackets := by
      rw [hdecomp]
      exact splitLines_joinSep _ hfree hnonempty hnil
    have h3 : (splitLines (xgc_strip s)).filter hasNonSpace =
        ((splitLines (stripComments s)).filter hasNonSpace).map removeBrackets := by
      rw [h2]
      exact List.filter_eq_self.mpr hns
    have h5 : removeBrackets (xgc_strip s) = xgc_strip s := by
      unfold removeBrackets
      refine List.filter_eq_self.mpr ?_
      intro c hc
      simpa using xgc_strip_no_brackets s c hc
    have hstep : xgc_strip (xgc_strip s) =
        removeBrackets (joinSep ['\n']
          ((splitLines (stripComments (xgc_strip s))).filter hasNonSpace)) := rfl
    rw [hstep, h1, h3, ← hdecomp, h5]

/-- Claim C4, counterexample.  The line `"[]"` survives the blank-line
filter (it is not whitespace-only) and is then blanked by bracket removal,
so the first normalization of `"[]\nG01 X1"` yields `"\nG01 X1"` - which a
second normalization changes to `"G01 X1"`: the normalizer is not
idempotent. -/
theorem c4_strip_not_idempotent :
    xgc_strip (cs "[]\nG01 X1") = cs "\nG01 X1" ∧
    xgc_strip (xgc_strip (cs "[]\nG01 X1")) = cs "G01 X1" ∧
    ¬ xgc_strip (xgc_strip (cs "[]\nG01 X1")) = xgc_strip (cs "[]\nG01 X1") := by
  refine ⟨by decide, by decide, by decide⟩

/-- Witness for `c4_strip_idempotent_no_blank` at a concrete script with a
comment, a blank line, and bracket sugar. -/
theorem c4_strip_idempotent_no_blank_witness :
    (∀ l ∈ splitOnNl (xgc_strip (cs "G01 X1 ; inline comment\n\n[G16] X0 Y0")),
      hasNonSpace l = true) ∧
    xgc_strip (xgc_strip (cs "G01 X1 ; inline comment\n\n[G16] X0 Y0")) =
      xgc_strip (cs "G01 X1 ; inline comment\n\n[G16] X0 Y0") :=
  ⟨by decide, c4_strip_idempotent_no_blank _ (by decide)⟩

end GRoller
